import Mathlib

/-
Shallow embedding of the clock arbitration core of luna-sysservice
(Src/ClockHandler.cpp) together with proofs about its operations.

Modelling conventions:
- `time_t` values are modelled as `Int`; the source's sentinel constants
  `invalidTime = (time_t)-1` and `invalidOffset = (time_t)LONG_MIN` are kept
  as distinguished `Int` values, exactly as the C++ code keeps them in-band.
- Calls to `time(0)` are made explicit: every operation that reads the
  process clock takes a `now : Int` parameter.
- `std::map<std::string, Clock> m_clocks` is modelled as an association list
  `List (String × Clock)`; `findClock` mirrors `m_clocks.find`, and mutation
  through an iterator is modelled by `replaceClock` (replace the entry with
  the given key).  Key uniqueness, which `std::map` guarantees by
  construction, appears as a `Nodup` hypothesis where a proof needs it.
- `clockChanged.fire(...)` is modelled by returning the list of fired
  `ChangeEvent`s alongside the new state.
- The luna-service message plumbing of `cbGetTime` (schema validation, JSON
  reply construction, `LSMessageReply`) is external protocol glue; the
  resolution logic between the schema parse and the reply construction is
  embedded as `cbGetTime` below, returning a structured `GetTimeReply`.
-/

namespace ClockHandler

/-- Sentinel for an unset time stamp: `(time_t)-1` in the source. -/
def invalidTime : Int := -1

/-- Sentinel for an unset offset: `(time_t)LONG_MIN` in the source. -/
def invalidOffset : Int := -(2 ^ 63)

/-- The reserved tag of the built-in manual time source. -/
def manual : String := "manual"

/-- The tag used by the micom firmware clock in the source. -/
def micom : String := "micom"

/-- The reserved virtual system-clock tag. -/
def system : String := "system"

/-- Per-source clock state (`struct Clock` of the source): caller-assigned
priority, offset from the process clock (or `invalidOffset`), and the process
instant of the last accepted update (or `invalidTime`). -/
structure Clock where
  priority : Int
  systemOffset : Int
  lastUpdate : Int
deriving DecidableEq, Repr

/-- One `clockChanged.fire(tag, priority, offset, lastUpdate)` notification. -/
structure ChangeEvent where
  tag : String
  priority : Int
  offset : Int
  lastUpdate : Int
deriving DecidableEq, Repr

/-- The registry `std::map<std::string, Clock>` as an association list. -/
abbrev ClocksMap := List (String × Clock)

/-- Lookup of the first entry with the given key (`m_clocks.find(tag)`). -/
def findClock : ClocksMap → String → Option Clock
  | [], _ => none
  | (k, c) :: rest, tag => if k = tag then some c else findClock rest tag

/-- Replace the value of the first entry with the given key; models mutation
of `it->second` through a `std::map` iterator obtained by `find`. -/
def replaceClock : ClocksMap → String → Clock → ClocksMap
  | [], _, _ => []
  | (k, c) :: rest, tag, c1 =>
      if k = tag then (k, c1) :: rest else (k, c) :: replaceClock rest tag c1

/-- Whole-handler state: the global override flag and the registry. -/
structure State where
  m_manualOverride : Bool
  m_clocks : ClocksMap
deriving DecidableEq, Repr

/-- Per-clock effect of `ClockHandler::adjust`: sources with unset offset are
skipped wholesale; otherwise the offset is re-based and a valid `lastUpdate`
is shifted with the time base. -/
def adjustClock (offset : Int) (c : Clock) : Clock :=
  if c.systemOffset = invalidOffset then c
  else
    { c with
      systemOffset := c.systemOffset - offset
      lastUpdate :=
        if c.lastUpdate ≠ invalidTime then c.lastUpdate + offset else c.lastUpdate }

/-- `ClockHandler::adjust(offset)`: re-base every registered clock. -/
def adjust (s : State) (offset : Int) : State :=
  { s with m_clocks := s.m_clocks.map (fun p => (p.1, adjustClock offset p.2)) }

/-- The change events re-fired on a true-to-false override transition: one per
registered source whose `lastUpdate` is valid, carrying its current data. -/
def fireValid (m : ClocksMap) : List ChangeEvent :=
  m.filterMap (fun p =>
    if p.2.lastUpdate = invalidTime then none
    else some ⟨p.1, p.2.priority, p.2.systemOffset, p.2.lastUpdate⟩)

/-- `ClockHandler::manualOverride(enabled)`: no-op when unchanged; on
enabling, just flip the flag; on disabling, flip the flag and re-fire a change
event for every source that has a valid `lastUpdate`. -/
def manualOverride (s : State) (enabled : Bool) : State × List ChangeEvent :=
  if s.m_manualOverride = enabled then (s, [])
  else if enabled then ({ s with m_manualOverride := enabled }, [])
  else ({ s with m_manualOverride := enabled }, fireValid s.m_clocks)

/-- `ClockHandler::setup(clockTag, priority, offset)`: re-registering an
existing tag overwrites `priority` and, when `offset` is not the sentinel,
also overwrites `systemOffset` and stamps `lastUpdate` with the current time
(`time(0)`, here `now`); a new tag is inserted with `lastUpdate` unset. -/
def setup (s : State) (clockTag : String) (priority : Int) (offset : Int)
    (now : Int) : State :=
  match findClock s.m_clocks clockTag with
  | some c =>
      let c1 := { c with priority := priority }
      let c2 :=
        if offset ≠ invalidOffset then
          { c1 with systemOffset := offset, lastUpdate := now }
        else c1
      { s with m_clocks := replaceClock s.m_clocks clockTag c2 }
  | none =>
      { s with m_clocks := s.m_clocks ++ [(clockTag, ⟨priority, offset, invalidTime⟩)] }

/-- The state built by the `ClockHandler` constructor: override flag false and
the registry seeded by `setup(manual, 0)` (sentinel offset, so the `now`
argument is irrelevant; the constructor passes no explicit offset). -/
def initState : State :=
  setup { m_manualOverride := false, m_clocks := [] } manual 0 invalidOffset 0

/-- `ClockHandler::update(offset, clockTag, timeStamp)` at process time `now`.
Returns the new state, the boolean result, and the fired change events.
An unregistered tag fails; an explicit time stamp that is not newer than the
source's valid `lastUpdate` is silently ignored with success (note that the
staleness test sits in the `else if` of the sentinel test, so a sentinel
time stamp is resolved to `now` and never checked for staleness); otherwise
the clock is overwritten and one change event fires. -/
def update (s : State) (offset : Int) (clockTag : String) (timeStamp : Int)
    (now : Int) : State × Bool × List ChangeEvent :=
  match findClock s.m_clocks clockTag with
  | none => (s, false, [])
  | some c =>
      let resolvedTs := if timeStamp = invalidTime then now else timeStamp
      if timeStamp ≠ invalidTime ∧ c.lastUpdate ≠ invalidTime ∧
          c.lastUpdate ≥ timeStamp then
        (s, true, [])
      else
        ({ s with
            m_clocks :=
              replaceClock s.m_clocks clockTag
                { c with lastUpdate := resolvedTs, systemOffset := offset } },
         true,
         [⟨clockTag, c.priority, offset, resolvedTs⟩])

/-- Resolution context threaded through `cbGetTime`: the current source label,
the `isSystem` flag, the still-available fallback (`haveFallback` plus the
`fallback` string of the source), and the found iterator (`m_clocks.end()` is
`none`; a found iterator carries its key `it->first` and value `it->second`). -/
structure ResolveCtx where
  source : String
  isSystem : Bool
  haveFallback : Option String
  it : Option (String × Clock)

/-- Manual-override stage of `cbGetTime`: when the caller asked for manual
override and the global flag is on, a registered manual source with a valid
offset captures the query (and disables fallback); otherwise nothing
changes. -/
def overrideStep (s : State) (source : String) (wantOverride : Bool)
    (fallback : Option String) : ResolveCtx :=
  if wantOverride && s.m_manualOverride then
    match findClock s.m_clocks manual with
    | some c =>
        if c.systemOffset ≠ invalidOffset then
          ⟨manual, false, none, some (manual, c)⟩
        else ⟨source, source == system, fallback, none⟩
    | none => ⟨source, source == system, fallback, none⟩
  else ⟨source, source == system, fallback, none⟩

/-- Lookup stage of `cbGetTime`: find the requested clock unless the override
stage already produced an iterator. -/
def lookupStep (s : State) (ctx : ResolveCtx) : ResolveCtx :=
  match ctx.it with
  | some _ => ctx
  | none => { ctx with it := (findClock s.m_clocks ctx.source).map (fun c => (ctx.source, c)) }

/-- Condition `it == end || it->second.systemOffset == invalidOffset` of the
fallback test. -/
def clockUnusable : Option (String × Clock) → Bool
  | none => true
  | some (_, c) => c.systemOffset == invalidOffset

/-- Fallback stage of `cbGetTime`: when a fallback was supplied, the current
source is not the system clock, and the current lookup is unusable, redirect
the query to the fallback source. -/
def fallbackStep (s : State) (ctx : ResolveCtx) : ResolveCtx :=
  match ctx.haveFallback with
  | none => ctx
  | some fb =>
      if clockUnusable ctx.it && !ctx.isSystem then
        { source := fb
          isSystem := fb == system
          haveFallback := ctx.haveFallback
          it := (findClock s.m_clocks fb).map (fun c => (fb, c)) }
      else ctx

/-- Structured content of the reply built by `cbGetTime`:
`systemTime utc` is the success reply with source "system" and offset 0;
`clockTime tag priority offset utc` is the success reply for a registered
clock; `notRegistered source` is the "Requested clock is not registered"
error; `noData tag priority` is the "No time available for that clock"
error (which still reports the matched source and priority). -/
inductive GetTimeReply where
  | systemTime (utc : Int)
  | clockTime (source : String) (priority : Int) (offset : Int) (utc : Int)
  | notRegistered (source : String)
  | noData (source : String) (priority : Int)
deriving DecidableEq, Repr

/-- Reply stage of `cbGetTime`. -/
def finalStep (ctx : ResolveCtx) (now : Int) : GetTimeReply :=
  if ctx.isSystem then .systemTime now
  else
    match ctx.it with
    | none => .notRegistered ctx.source
    | some (tag, c) =>
        if c.systemOffset = invalidOffset then .noData tag c.priority
        else .clockTime tag c.priority c.systemOffset (now + c.systemOffset)

/-- The resolution logic of `ClockHandler::cbGetTime` on already-parsed
fields `source`, `manualOverride` (here `wantOverride`) and optional
`fallback`, evaluated at process time `now`.  It reads the handler state and
never mutates it. -/
def cbGetTime (s : State) (source : String) (wantOverride : Bool)
    (fallback : Option String) (now : Int) : GetTimeReply :=
  finalStep (fallbackStep s (lookupStep s (overrideStep s source wantOverride fallback))) now

/-- The registry-mutating entry points of the handler, for reachability
statements.  `cbGetTime` is read-only and so does not appear. -/
inductive Op where
  | setup (clockTag : String) (priority : Int) (offset : Int) (now : Int)
  | update (offset : Int) (clockTag : String) (timeStamp : Int) (now : Int)
  | adjust (offset : Int)
  | setOverride (enabled : Bool)

/-- Apply one mutating operation to the state (events discarded). -/
def applyOp (s : State) : Op → State
  | .setup t p o n => setup s t p o n
  | .update o t ts n => (update s o t ts n).1
  | .adjust d => adjust s d
  | .setOverride b => (manualOverride s b).1

/-- Run a sequence of mutating operations from a state. -/
def run (s : State) (ops : List Op) : State :=
  ops.foldl applyOp s

/-- The tag registered by an operation, when it is a `setup`. -/
def setupTag : Op → Option String
  | .setup t _ _ _ => some t
  | _ => none

/-- A source "has data": it is registered and its `lastUpdate` is valid. -/
def hasData (s : State) (tag : String) : Bool :=
  match findClock s.m_clocks tag with
  | some c => c.lastUpdate != invalidTime
  | none => false

/-- The registry invariant asserted at ClockHandler.cpp:112: every entry with
a valid `lastUpdate` has a valid `systemOffset`. -/
def ClockInv (s : State) : Prop :=
  ∀ p ∈ s.m_clocks, p.2.lastUpdate ≠ invalidTime → p.2.systemOffset ≠ invalidOffset

instance (s : State) : Decidable (ClockInv s) :=
  inferInstanceAs (Decidable (∀ p ∈ s.m_clocks,
    p.2.lastUpdate ≠ invalidTime → p.2.systemOffset ≠ invalidOffset))

/-- Replacing the entry found under a key makes lookup of that key return the
new value. -/
theorem findClock_replace_self {m : ClocksMap} {tag : String} {c : Clock}
    (h : findClock m tag = some c) (c1 : Clock) :
    findClock (replaceClock m tag c1) tag = some c1 := by
  induction m with
  | nil => simp [findClock] at h
  | cons p rest ih =>
    obtain ⟨k, v⟩ := p
    by_cases hk : k = tag
    · simp [findClock, replaceClock, hk]
    · simp only [findClock, replaceClock, if_neg hk] at h ⊢
      exact ih h

/-- Replacing an entry under one key does not affect lookup under another. -/
theorem findClock_replace_other {m : ClocksMap} {tag t : String} (h : t ≠ tag)
    (c1 : Clock) : findClock (replaceClock m tag c1) t = findClock m t := by
  induction m with
  | nil => simp [replaceClock]
  | cons p rest ih =>
    obtain ⟨k, v⟩ := p
    by_cases hk : k = tag
    · have hkt : ¬ (tag = t) := fun e => h e.symm
      simp [findClock, replaceClock, hk, hkt]
    · simp [findClock, replaceClock, hk, ih]

/-- Replacing under an absent key is the identity. -/
theorem replaceClock_of_none {m : ClocksMap} {tag : String}
    (h : findClock m tag = none) (c1 : Clock) : replaceClock m tag c1 = m := by
  induction m with
  | nil => rfl
  | cons p rest ih =>
    obtain ⟨k, v⟩ := p
    by_cases hk : k = tag
    · simp [findClock, hk] at h
    · simp only [findClock] at h
      rw [if_neg hk] at h
      simp [replaceClock, hk, ih h]

/-- Lookup after appending a single entry at the end. -/
theorem findClock_append (m : ClocksMap) (k : String) (c : Clock) (tag : String) :
    findClock (m ++ [(k, c)]) tag =
      match findClock m tag with
      | some c0 => some c0
      | none => if k = tag then some c else none := by
  induction m with
  | nil => simp [findClock]
  | cons p rest ih =>
    obtain ⟨k1, v⟩ := p
    by_cases hk : k1 = tag
    · simp [findClock, hk]
    · simp [findClock, hk, ih]

/-- Lookup in a value-mapped registry. -/
theorem findClock_map (f : Clock → Clock) (m : ClocksMap) (tag : String) :
    findClock (m.map (fun p => (p.1, f p.2))) tag = (findClock m tag).map f := by
  induction m with
  | nil => simp [findClock]
  | cons p rest ih =>
    obtain ⟨k, v⟩ := p
    by_cases hk : k = tag
    · simp [findClock, hk]
    · simp [findClock, hk, ih]

/-- Members of a replaced registry are old members or the replacement. -/
theorem mem_replaceClock {m : ClocksMap} {tag : String} {c1 : Clock}
    {p : String × Clock} (h : p ∈ replaceClock m tag c1) :
    p ∈ m ∨ p = (tag, c1) := by
  induction m with
  | nil => simp [replaceClock] at h
  | cons q rest ih =>
    obtain ⟨k, v⟩ := q
    by_cases hk : k = tag
    · subst hk
      simp only [replaceClock, List.mem_cons, if_true, eq_self_iff_true] at h
      rcases h with h | h
      · exact Or.inr h
      · exact Or.inl (List.mem_cons_of_mem _ h)
    · simp only [replaceClock, List.mem_cons] at h
      rw [if_neg hk] at h
      rcases List.mem_cons.1 h with h1 | h1
      · exact Or.inl (List.mem_cons.2 (Or.inl h1))
      · rcases ih h1 with h2 | h2
        · exact Or.inl (List.mem_cons_of_mem _ h2)
        · exact Or.inr h2

/-- A successful lookup returns a member of the registry. -/
theorem findClock_mem {m : ClocksMap} {tag : String} {c : Clock}
    (h : findClock m tag = some c) : (tag, c) ∈ m := by
  induction m with
  | nil => simp [findClock] at h
  | cons p rest ih =>
    obtain ⟨k, v⟩ := p
    by_cases hk : k = tag
    · subst hk
      simp [findClock] at h
      subst h
      exact List.mem_cons_self _ _
    · simp [findClock, hk] at h
      exact List.mem_cons_of_mem _ (ih h)

/-- With duplicate-free keys (as in `std::map`), membership determines the
result of lookup. -/
theorem findClock_of_mem_nodup {m : ClocksMap}
    (hnd : (m.map Prod.fst).Nodup) {k : String} {c : Clock}
    (h : (k, c) ∈ m) : findClock m k = some c := by
  induction m with
  | nil => simp at h
  | cons p rest ih =>
    obtain ⟨k1, v⟩ := p
    simp only [List.map_cons, List.nodup_cons] at hnd
    rcases List.mem_cons.1 h with h1 | h1
    · rw [Prod.mk.injEq] at h1
      simp [findClock, h1.1.symm, h1.2]
    · have hk : ¬ (k1 = k) := by
        intro e
        exact hnd.1 (e ▸ List.mem_map.2 ⟨(k, c), h1, rfl⟩)
      simp [findClock, hk, ih hnd.2 h1]

/-- The state component of `manualOverride` never changes the registry. -/
theorem manualOverride_clocks (s : State) (b : Bool) :
    ((manualOverride s b).1).m_clocks = s.m_clocks := by
  unfold manualOverride
  split
  · rfl
  · split <;> rfl

/-- C3: an update of a registered source with an explicit (non-sentinel)
time stamp that is not newer than the source's valid `lastUpdate` leaves the
whole state unchanged, fires no change event, and reports success. -/
theorem update_stale_noop (s : State) (offset : Int) (tag : String)
    (ts now : Int) (c : Clock) (hfind : findClock s.m_clocks tag = some c)
    (hvalid : c.lastUpdate ≠ invalidTime) (hts : ts ≠ invalidTime)
    (hle : ts ≤ c.lastUpdate) :
    update s offset tag ts now = (s, true, []) := by
  simp [update, hfind, hts, hvalid, hle, ge_iff_le]

/-- Witness for `update_stale_noop`: a registered "manual" source last
updated at 100 ignores an explicit update stamped 50. -/
theorem update_stale_noop_witness :
    update { m_manualOverride := false, m_clocks := [(manual, ⟨0, 5, 100⟩)] }
        7 manual 50 0
      = ({ m_manualOverride := false, m_clocks := [(manual, ⟨0, 5, 100⟩)] },
         true, []) :=
  update_stale_noop _ 7 manual 50 0 ⟨0, 5, 100⟩ (by decide) (by decide)
    (by decide) (by decide)

/-- Counterexample to C2 as stated: with the sentinel time stamp, the source
says the update should be ignored when the existing `lastUpdate` (100) is not
less than the resolved time stamp (`now = 100`); instead the code overwrites
the clock and fires a change event, because the staleness test sits in the
`else if` branch of the sentinel test (ClockHandler.cpp:173-177). -/
theorem update_sentinel_stale_counterexample :
    update { m_manualOverride := false, m_clocks := [(manual, ⟨0, 3, 100⟩)] }
        7 manual invalidTime 100
      ≠ ({ m_manualOverride := false, m_clocks := [(manual, ⟨0, 3, 100⟩)] },
         true, ([] : List ChangeEvent)) := by
  decide

/-- C2 (amended): the staleness check applies only to explicitly passed time
stamps.  A sentinel-stamped update of a registered source always proceeds:
it reports success, fires exactly one change event carrying the resolved
time stamp `now`, overwrites the source's offset and `lastUpdate` with the
given offset and `now` (even when the previous `lastUpdate` is not less than
`now`), and leaves every other source unchanged. -/
theorem update_sentinel_always_applies (s : State) (offset : Int)
    (tag : String) (now : Int) (c : Clock)
    (hfind : findClock s.m_clocks tag = some c) :
    (update s offset tag invalidTime now).2.1 = true
    ∧ (update s offset tag invalidTime now).2.2 = [⟨tag, c.priority, offset, now⟩]
    ∧ findClock (update s offset tag invalidTime now).1.m_clocks tag
        = some ⟨c.priority, offset, now⟩
    ∧ ∀ t, t ≠ tag →
        findClock (update s offset tag invalidTime now).1.m_clocks t
          = findClock s.m_clocks t := by
  refine ⟨?_, ?_, ?_, ?_⟩
  · simp [update, hfind]
  · simp [update, hfind]
  · simp only [update, hfind]
    simp only [ne_eq, not_true_eq_false, false_and, if_false]
    exact findClock_replace_self hfind _
  · intro t ht
    simp only [update, hfind]
    simp only [ne_eq, not_true_eq_false, false_and, if_false]
    exact findClock_replace_other ht _

/-- Witness for `update_sentinel_always_applies`: the sentinel-stamped update
at `now = 100` of a source whose `lastUpdate` is already 100 still overwrites
it. -/
theorem update_sentinel_always_applies_witness :
    findClock (update { m_manualOverride := false, m_clocks := [(manual, ⟨0, 3, 100⟩)] } 7 manual invalidTime 100).1.m_clocks manual
      = some ⟨0, 7, 100⟩ :=
  (update_sentinel_always_applies _ 7 manual 100 ⟨0, 3, 100⟩ (by decide)).2.2.1

/-- Per-clock round trip of `adjust`, valid as long as the adjusted values do
not collide with the in-band sentinels. -/
theorem adjustClock_adjustClock (d : Int) (c : Clock)
    (h1 : c.systemOffset ≠ invalidOffset → c.systemOffset - d ≠ invalidOffset)
    (h2 : c.systemOffset ≠ invalidOffset → c.lastUpdate ≠ invalidTime →
      c.lastUpdate + d ≠ invalidTime) :
    adjustClock (-d) (adjustClock d c) = c := by
  obtain ⟨pr, off, lu⟩ := c
  by_cases ho : off = invalidOffset
  · simp [adjustClock, ho]
  · have h1a := h1 ho
    by_cases hl : lu = invalidTime
    · simp [adjustClock, ho, hl, h1a]
    · have h2a := h2 ho hl
      simp [adjustClock, ho, hl, h1a, h2a]

/-- List form of the `adjust` round trip. -/
theorem adjust_clocks_roundTrip (d : Int) (m : ClocksMap)
    (h1 : ∀ p ∈ m, p.2.systemOffset ≠ invalidOffset →
      p.2.systemOffset - d ≠ invalidOffset)
    (h2 : ∀ p ∈ m, p.2.systemOffset ≠ invalidOffset →
      p.2.lastUpdate ≠ invalidTime → p.2.lastUpdate + d ≠ invalidTime) :
    (m.map (fun p => (p.1, adjustClock d p.2))).map
        (fun p => (p.1, adjustClock (-d) p.2)) = m := by
  induction m with
  | nil => rfl
  | cons p rest ih =>
    simp only [List.map_cons, List.cons.injEq]
    constructor
    · rw [adjustClock_adjustClock d p.2 (h1 p (List.mem_cons_self _ _))
        (h2 p (List.mem_cons_self _ _))]
    · exact ih (fun q hq => h1 q (List.mem_cons_of_mem _ hq))
        (fun q hq => h2 q (List.mem_cons_of_mem _ hq))

/-- Counterexample to C6 as stated: a source whose stored offset is
`invalidOffset + 1` is re-based by `adjust(1)` onto the sentinel
`invalidOffset` itself, so the subsequent `adjust(-1)` skips it as "unset"
and the round trip fails (its offset stays at the sentinel and its
`lastUpdate` stays shifted by 1). -/
theorem adjust_roundTrip_counterexample :
    adjust (adjust { m_manualOverride := false, m_clocks := [(manual, ⟨0, invalidOffset + 1, 5⟩)] } 1) (-1)
      ≠ { m_manualOverride := false, m_clocks := [(manual, ⟨0, invalidOffset + 1, 5⟩)] } := by
  decide

/-- C6 (amended): `adjust(d)` followed by `adjust(-d)` restores the whole
state, provided no valid stored offset is re-based onto the sentinel
`invalidOffset` and no valid `lastUpdate` is shifted onto the sentinel
`invalidTime` by the first call; sources with unset offset are untouched by
both calls. -/
theorem adjust_roundTrip (s : State) (d : Int)
    (h1 : ∀ p ∈ s.m_clocks, p.2.systemOffset ≠ invalidOffset →
      p.2.systemOffset - d ≠ invalidOffset)
    (h2 : ∀ p ∈ s.m_clocks, p.2.systemOffset ≠ invalidOffset →
      p.2.lastUpdate ≠ invalidTime → p.2.lastUpdate + d ≠ invalidTime) :
    adjust (adjust s d) (-d) = s
    ∧ ∀ p ∈ s.m_clocks, p.2.systemOffset = invalidOffset →
        adjustClock d p.2 = p.2 ∧ adjustClock (-d) p.2 = p.2 := by
  constructor
  · obtain ⟨flag, m⟩ := s
    simp only [adjust, State.mk.injEq, and_true, true_and]
    exact adjust_clocks_roundTrip d m h1 h2
  · intro p hp hoff
    exact ⟨by simp [adjustClock, hoff], by simp [adjustClock, hoff]⟩

/-- Witness for `adjust_roundTrip`: on the constructor state (whose only
source has the unset offset) the round trip for `d = 1` is the identity. -/
theorem adjust_roundTrip_witness :
    adjust (adjust initState 1) (-1) = initState :=
  (adjust_roundTrip initState 1 (by decide) (by decide)).1

/-- Counterexample to C5 as stated: re-registering the already-registered
"manual" source with a non-sentinel initial offset stamps `lastUpdate` with
the current time (ClockHandler.cpp:142), transitioning it from "no data" to
"has data" without any `update` call. -/
theorem setup_creates_data_counterexample :
    hasData initState manual = false
    ∧ hasData (setup initState manual 1 5 50) manual = true := by
  decide

/-- C5 (amended): besides `update`, the only operation that can transition a
source from "no data" (`lastUpdate` unset) to "has data" is re-registration
of an already-registered tag with a non-sentinel initial offset.  Setup with
the sentinel offset, setup of a brand-new tag (with any offset), `adjust`,
and `setOverride` never create data, and `cbGetTime` does not mutate the
state at all. -/
theorem hasData_only_update_or_reregister (s : State) (tag : String) :
    (∀ t pr n, hasData (setup s t pr invalidOffset n) tag = true →
      hasData s tag = true)
    ∧ (∀ t pr off n, findClock s.m_clocks t = none →
      hasData (setup s t pr off n) tag = true → hasData s tag = true)
    ∧ (∀ d, hasData (adjust s d) tag = true → hasData s tag = true)
    ∧ (∀ b, hasData ((manualOverride s b).1) tag = true → hasData s tag = true) := by
  refine ⟨?_, ?_, ?_, ?_⟩
  · intro t pr n h
    unfold setup at h
    cases hf : findClock s.m_clocks t with
    | some c =>
        rw [hf] at h
        simp only [ne_eq, not_true_eq_false, if_false, ite_false] at h
        by_cases ht : tag = t
        · subst ht
          unfold hasData at h ⊢
          rw [findClock_replace_self hf _] at h
          rw [hf]
          exact h
        · unfold hasData at h ⊢
          rw [findClock_replace_other ht _] at h
          exact h
    | none =>
        rw [hf] at h
        unfold hasData at h ⊢
        rw [findClock_append] at h
        cases hft : findClock s.m_clocks tag with
        | some c0 => rw [hft] at h; exact h
        | none =>
            rw [hft] at h
            by_cases ht : t = tag
            · simp [ht] at h
            · simp [ht] at h
  · intro t pr off n hnone h
    unfold setup at h
    rw [hnone] at h
    unfold hasData at h ⊢
    rw [findClock_append] at h
    cases hft : findClock s.m_clocks tag with
    | some c0 => rw [hft] at h; exact h
    | none =>
        rw [hft] at h
        by_cases ht : t = tag
        · simp [ht] at h
        · simp [ht] at h
  · intro d h
    unfold hasData at h ⊢
    unfold adjust at h
    simp only [findClock_map] at h
    cases hf : findClock s.m_clocks tag with
    | none => rw [hf] at h; simp at h
    | some c =>
        rw [hf] at h
        simp only [Option.map_some'] at h
        by_cases ho : c.systemOffset = invalidOffset
        · rw [show adjustClock d c = c from by simp [adjustClock, ho]] at h
          exact h
        · by_cases hl : c.lastUpdate = invalidTime
          · rw [show (adjustClock d c).lastUpdate = c.lastUpdate from by
              simp [adjustClock, ho, hl]] at h
            exact h
          · simp [hl]
  · intro b h
    unfold hasData at h ⊢
    rw [manualOverride_clocks] at h
    exact h

/-- Witness for `hasData_only_update_or_reregister`: `adjust` preserves the
"has data" status of a source that has one. -/
theorem hasData_only_update_or_reregister_witness :
    hasData { m_manualOverride := false, m_clocks := [(manual, ⟨0, 5, 100⟩)] } manual = true :=
  (hasData_only_update_or_reregister _ manual).2.2.1 7 (by decide)

/-- Counterexample to C8 as stated: `update` applies its offset argument
without guarding against the in-band sentinel, so updating "manual" with
offset `invalidOffset` and a valid time stamp produces a registry entry with
valid `lastUpdate` but unset offset, violating the invariant the code itself
asserts at ClockHandler.cpp:112. -/
theorem clockInv_update_counterexample :
    ClockInv initState
    ∧ ¬ ClockInv ((update initState invalidOffset manual 100 50).1) := by
  decide

/-- C8 (amended): every mutating operation preserves the registry invariant
"valid `lastUpdate` implies valid offset", provided `update` is not handed
the sentinel `invalidOffset` as its offset argument and `adjust` does not
re-base any valid stored offset onto the sentinel; `setup` and `setOverride`
preserve it unconditionally, and `cbGetTime` does not mutate the state. -/
theorem clockInv_preserved (s : State) (hinv : ClockInv s) :
    (∀ t pr off now, ClockInv (setup s t pr off now))
    ∧ (∀ off t ts now, off ≠ invalidOffset →
        ClockInv ((update s off t ts now).1))
    ∧ (∀ d, (∀ p ∈ s.m_clocks, p.2.systemOffset ≠ invalidOffset →
        p.2.systemOffset - d ≠ invalidOffset) → ClockInv (adjust s d))
    ∧ (∀ b, ClockInv ((manualOverride s b).1)) := by
  refine ⟨?_, ?_, ?_, ?_⟩
  · intro t pr off now p hp
    unfold setup at hp
    cases hf : findClock s.m_clocks t with
    | some c =>
        rw [hf] at hp
        simp only at hp
        rcases mem_replaceClock hp with h1 | h1
        · exact hinv p h1
        · subst h1
          by_cases hoff : off = invalidOffset
          · simp only [hoff, ne_eq, not_true_eq_false, ite_false]
            exact fun hl => hinv (t, c) (findClock_mem hf) hl
          · simp only [ne_eq, hoff, not_false_eq_true, ite_true]
            intro _
            trivial
    | none =>
        rw [hf] at hp
        simp only at hp
        rcases List.mem_append.1 hp with h1 | h1
        · exact hinv p h1
        · simp only [List.mem_singleton] at h1
          subst h1
          intro hl
          exact absurd rfl hl
  · intro off t ts now hoff p hp
    unfold update at hp
    cases hf : findClock s.m_clocks t with
    | none => rw [hf] at hp; exact hinv p hp
    | some c =>
        rw [hf] at hp
        simp only at hp
        by_cases hc : ts ≠ invalidTime ∧ c.lastUpdate ≠ invalidTime ∧
            c.lastUpdate ≥ ts
        · rw [if_pos hc] at hp
          exact hinv p hp
        · rw [if_neg hc] at hp
          simp only at hp
          rcases mem_replaceClock hp with h1 | h1
          · exact hinv p h1
          · subst h1
            intro _
            exact hoff
  · intro d hd p hp
    unfold adjust at hp
    rcases List.mem_map.1 hp with ⟨q, hq, he⟩
    subst he
    by_cases ho : q.2.systemOffset = invalidOffset
    · rw [show adjustClock d q.2 = q.2 from by simp [adjustClock, ho]]
      exact hinv q hq
    · intro _
      have he : (adjustClock d q.2).systemOffset = q.2.systemOffset - d := by
        simp [adjustClock, ho]
      show (adjustClock d q.2).systemOffset ≠ invalidOffset
      rw [he]
      exact hd q hq ho
  · intro b p hp
    rw [manualOverride_clocks] at hp
    exact hinv p hp

/-- Witness for `clockInv_preserved`: a normal update preserves the
invariant on the constructor state. -/
theorem clockInv_preserved_witness :
    ClockInv ((update initState 5 manual 100 50).1) :=
  (clockInv_preserved initState (by decide)).2.1 5 manual 100 50 (by decide)

/-- No event of `fireValid` carries a tag that is not a key of the registry. -/
theorem fireValid_filter_not_mem {m : ClocksMap} {tag : String}
    (h : tag ∉ m.map Prod.fst) :
    (fireValid m).filter (fun e => e.tag == tag) = [] := by
  induction m with
  | nil => rfl
  | cons p rest ih =>
    obtain ⟨k, v⟩ := p
    simp only [List.map_cons, List.mem_cons, not_or] at h
    have hk : (k == tag) = false := by
      simp only [beq_eq_false_iff_ne, ne_eq]
      exact fun e => h.1 e.symm
    by_cases hl : v.lastUpdate = invalidTime
    · simp only [fireValid, List.filterMap_cons, hl, if_pos rfl]
      exact ih h.2
    · simp only [fireValid, List.filterMap_cons] at ih ⊢
      rw [if_neg hl]
      simp only [List.filter_cons, hk]
      exact ih h.2

/-- With duplicate-free keys, the events of `fireValid` carrying a given
registered tag are exactly one event with the source's current data when its
`lastUpdate` is valid, and none otherwise. -/
theorem fireValid_filter_of_find {m : ClocksMap}
    (hnd : (m.map Prod.fst).Nodup) {tag : String} {c : Clock}
    (hf : findClock m tag = some c) :
    (fireValid m).filter (fun e => e.tag == tag) =
      if c.lastUpdate = invalidTime then []
      else [⟨tag, c.priority, c.systemOffset, c.lastUpdate⟩] := by
  induction m with
  | nil => simp [findClock] at hf
  | cons p rest ih =>
    obtain ⟨k, v⟩ := p
    simp only [List.map_cons, List.nodup_cons] at hnd
    by_cases hk : k = tag
    · subst hk
      have hv : v = c := by
        simpa [findClock] using hf
      by_cases hl : c.lastUpdate = invalidTime
      · rw [if_pos hl]
        have h0 : fireValid ((k, v) :: rest) = fireValid rest := by
          simp [fireValid, hv, hl]
        rw [h0]
        exact fireValid_filter_not_mem hnd.1
      · rw [if_neg hl]
        have h0 : fireValid ((k, v) :: rest)
            = ⟨k, c.priority, c.systemOffset, c.lastUpdate⟩ :: fireValid rest := by
          simp [fireValid, hv, hl]
        rw [h0, List.filter_cons]
        simp [fireValid_filter_not_mem hnd.1]
    · simp only [findClock] at hf
      rw [if_neg hk] at hf
      have hkb : (k == tag) = false := by
        simp only [beq_eq_false_iff_ne, ne_eq]
        exact hk
      by_cases hl : v.lastUpdate = invalidTime
      · have h0 : fireValid ((k, v) :: rest) = fireValid rest := by
          simp [fireValid, hl]
        rw [h0]
        exact ih hnd.2 hf
      · have h0 : fireValid ((k, v) :: rest)
            = ⟨k, v.priority, v.systemOffset, v.lastUpdate⟩ :: fireValid rest := by
          simp [fireValid, hl]
        rw [h0, List.filter_cons]
        simp only [hkb]
        simp only [Bool.false_eq_true, if_false, ite_false]
        exact ih hnd.2 hf

/-- With duplicate-free keys, every event of `fireValid` reproduces the
current data of a registered source with valid `lastUpdate`. -/
theorem fireValid_mem {m : ClocksMap} (hnd : (m.map Prod.fst).Nodup)
    {e : ChangeEvent} (he : e ∈ fireValid m) :
    findClock m e.tag = some ⟨e.priority, e.offset, e.lastUpdate⟩
    ∧ e.lastUpdate ≠ invalidTime := by
  rcases List.mem_filterMap.1 he with ⟨p, hp, hpe⟩
  by_cases hl : p.2.lastUpdate = invalidTime
  · rw [if_pos hl] at hpe
    exact absurd hpe (by simp)
  · rw [if_neg hl] at hpe
    injection hpe with hpe
    subst hpe
    refine ⟨?_, hl⟩
    have : (⟨p.2.priority, p.2.systemOffset, p.2.lastUpdate⟩ : Clock) = p.2 := rfl
    rw [this]
    exact findClock_of_mem_nodup hnd (by exact hp)

/-- C7: `setOverride` is a no-op when the flag is unchanged; enabling fires
nothing; disabling flips only the flag and re-fires, for each registered
source (keys unique as in `std::map`), exactly one change event with its
current unchanged data when its `lastUpdate` is valid and no event when the
source was never updated, and every fired event belongs to such a source. -/
theorem manualOverride_spec (s : State) (b : Bool)
    (hnd : (s.m_clocks.map Prod.fst).Nodup) :
    (s.m_manualOverride = b → manualOverride s b = (s, []))
    ∧ (s.m_manualOverride = false → b = true →
        manualOverride s b = ({ s with m_manualOverride := true }, []))
    ∧ (s.m_manualOverride = true → b = false →
        (manualOverride s b).1 = { s with m_manualOverride := false }
        ∧ (∀ tag c, findClock s.m_clocks tag = some c →
            (manualOverride s b).2.filter (fun e => e.tag == tag) =
              if c.lastUpdate = invalidTime then []
              else [⟨tag, c.priority, c.systemOffset, c.lastUpdate⟩])
        ∧ ∀ e ∈ (manualOverride s b).2,
            findClock s.m_clocks e.tag = some ⟨e.priority, e.offset, e.lastUpdate⟩
            ∧ e.lastUpdate ≠ invalidTime) := by
  refine ⟨?_, ?_, ?_⟩
  · intro h
    simp [manualOverride, h]
  · intro h1 h2
    subst h2
    simp [manualOverride, h1]
  · intro h1 h2
    subst h2
    have hne : ¬ (s.m_manualOverride = false) := by
      rw [h1]
      simp
    refine ⟨by simp [manualOverride, hne], ?_, ?_⟩
    · intro tag c hf
      have : (manualOverride s false).2 = fireValid s.m_clocks := by
        simp [manualOverride, hne]
      rw [this]
      exact fireValid_filter_of_find hnd hf
    · intro e he
      have : (manualOverride s false).2 = fireValid s.m_clocks := by
        simp [manualOverride, hne]
      rw [this] at he
      exact fireValid_mem hnd he

/-- Witness for `manualOverride_spec`: disabling the override flips only the
flag on a concrete state. -/
theorem manualOverride_spec_witness :
    (manualOverride { m_manualOverride := true, m_clocks := [(manual, ⟨0, 5, 100⟩)] } false).1
      = { m_manualOverride := false, m_clocks := [(manual, ⟨0, 5, 100⟩)] } :=
  ((manualOverride_spec { m_manualOverride := true, m_clocks := [(manual, ⟨0, 5, 100⟩)] } false (by decide)).2.2 rfl rfl).1

/-- When the override stage does not force the manual source (because the
caller did not ask, the global flag is off, or the manual source has no
valid offset), it leaves the query untouched. -/
theorem overrideStep_not_forced (s : State) (src : String) (want : Bool)
    (fb : Option String)
    (h : want = false ∨ s.m_manualOverride = false ∨
      (∀ c, findClock s.m_clocks manual = some c → c.systemOffset = invalidOffset)) :
    overrideStep s src want fb = ⟨src, src == system, fb, none⟩ := by
  cases hw : (want && s.m_manualOverride) with
  | false => simp [overrideStep, hw]
  | true =>
    rw [Bool.and_eq_true] at hw
    rcases h with h | h | h
    · rw [h] at hw
      exact absurd hw.1 (by simp)
    · rw [h] at hw
      exact absurd hw.2 (by simp)
    · cases hm : findClock s.m_clocks manual with
      | none => simp [overrideStep, hw.1, hw.2, hm]
      | some c => simp [overrideStep, hw.1, hw.2, hm, h c hm]

/-- C1: with the global override flag on, a query with `wantManualOverride`
is forced to the registered manual source whenever that source has a valid
offset — the reply is the manual clock's data (so not the system reply) for
every requested source and every fallback, i.e. fallback is not considered;
when the manual source has no valid offset nothing is forced and the query
resolves exactly as without the override request.  Concretely, after
`setOverride(true)` and `update(+5, "manual")`, a `getTime` for the
unregistered "micom" with override returns the manual source's time. -/
theorem cbGetTime_manual_override (s : State) (src : String)
    (fb : Option String) (now : Int) (hov : s.m_manualOverride = true) :
    (∀ c, findClock s.m_clocks manual = some c → c.systemOffset ≠ invalidOffset →
      cbGetTime s src true fb now
        = .clockTime manual c.priority c.systemOffset (now + c.systemOffset))
    ∧ ((∀ c, findClock s.m_clocks manual = some c → c.systemOffset = invalidOffset) →
      cbGetTime s src true fb now = cbGetTime s src false fb now)
    ∧ (cbGetTime (update (manualOverride initState true).1 5 manual invalidTime 100).1 micom true none 200
        = .clockTime manual 0 5 205
      ∧ findClock (update (manualOverride initState true).1 5 manual invalidTime 100).1.m_clocks micom = none) := by
  refine ⟨?_, ?_, by decide⟩
  · intro c hc hoff
    simp [cbGetTime, overrideStep, lookupStep, fallbackStep, finalStep,
      hov, hc, hoff]
  · intro hinv
    cases hm : findClock s.m_clocks manual with
    | none =>
        rw [cbGetTime, overrideStep_not_forced s src true fb (Or.inr (Or.inr hinv)),
          cbGetTime, overrideStep_not_forced s src false fb (Or.inl rfl)]
    | some c =>
        rw [cbGetTime, overrideStep_not_forced s src true fb (Or.inr (Or.inr hinv)),
          cbGetTime, overrideStep_not_forced s src false fb (Or.inl rfl)]

/-- Witness for `cbGetTime_manual_override`: on a state with the override
flag on and a manual source with offset 5, a query for "micom" with the
override request returns the manual time. -/
theorem cbGetTime_manual_override_witness :
    cbGetTime { m_manualOverride := true, m_clocks := [(manual, ⟨0, 5, 100⟩)] } micom true none 200
      = .clockTime manual 0 5 205 :=
  (cbGetTime_manual_override { m_manualOverride := true, m_clocks := [(manual, ⟨0, 5, 100⟩)] } micom none 200 rfl).1
    ⟨0, 5, 100⟩ (by decide) (by decide)

/-- C4: whenever a fallback was supplied, the override stage did not capture
the query, the requested source is not "system", and that source is either
unregistered or has an unset offset, resolution is exactly the resolution of
the fallback source as if it had been requested (source label replaced,
`isSystem` re-derived).  Concretely, `getTime` for the unregistered "micom"
with fallback "system" returns the system time. -/
theorem cbGetTime_fallback (s : State) (now : Int) :
    (∀ src want fb, src ≠ system →
      (want = false ∨ s.m_manualOverride = false ∨
        (∀ c, findClock s.m_clocks manual = some c → c.systemOffset = invalidOffset)) →
      (∀ c, findClock s.m_clocks src = some c → c.systemOffset = invalidOffset) →
      cbGetTime s src want (some fb) now = cbGetTime s fb want none now)
    ∧ (findClock s.m_clocks micom = none →
      cbGetTime s micom false (some system) now = .systemTime now) := by
  constructor
  · intro src want fb hsrc hnf hlook
    rw [cbGetTime, overrideStep_not_forced s src want (some fb) hnf,
      cbGetTime, overrideStep_not_forced s fb want none hnf]
    have hsys : (src == system) = false := by
      simp only [beq_eq_false_iff_ne, ne_eq]
      exact hsrc
    have hun : clockUnusable ((findClock s.m_clocks src).map (fun c => (src, c))) = true := by
      cases hs : findClock s.m_clocks src with
      | none => rfl
      | some c =>
          simp only [Option.map_some', clockUnusable]
          simp [hlook c hs]
    simp only [lookupStep]
    simp only [fallbackStep, hsys, hun]
    simp [finalStep]
  · intro hm
    have h1 : (micom == system) = false := by decide
    have h2 : (system == system) = true := by decide
    simp [cbGetTime, overrideStep, lookupStep, fallbackStep, finalStep,
      clockUnusable, hm, h1, h2]

/-- Witness for `cbGetTime_fallback`: the concrete fallback scenario on the
constructor state. -/
theorem cbGetTime_fallback_witness :
    cbGetTime initState micom false (some system) 42 = .systemTime 42 :=
  (cbGetTime_fallback initState 42).2 (by decide)

/-- A tag that is absent from the registry stays absent under any single
mutating operation that is not a `setup` of that very tag. -/
theorem findClock_applyOp_none {s : State} {t : String}
    (h : findClock s.m_clocks t = none) (op : Op)
    (hop : setupTag op ≠ some t) :
    findClock (applyOp s op).m_clocks t = none := by
  cases op with
  | setup t1 pr off n =>
      have ht : t1 ≠ t := fun e => hop (by simp [setupTag, e])
      simp only [applyOp, setup]
      cases hf : findClock s.m_clocks t1 with
      | some c =>
          simp only
          rw [findClock_replace_other (fun e => ht e.symm) _]
          exact h
      | none =>
          simp only
          rw [findClock_append, h]
          simp [ht]
  | update off tag ts n =>
      simp only [applyOp, update]
      cases hf : findClock s.m_clocks tag with
      | none => exact h
      | some c =>
          simp only
          split
          · exact h
          · simp only
            have ht : t ≠ tag := by
              intro e
              rw [e] at h
              rw [h] at hf
              exact Option.noConfusion hf
            rw [findClock_replace_other ht _]
            exact h
  | adjust d =>
      simp only [applyOp, adjust, findClock_map, h, Option.map_none']
  | setOverride b =>
      simp only [applyOp]
      rw [manualOverride_clocks]
      exact h

/-- A tag that is absent stays absent along any run whose `setup` calls all
use other tags. -/
theorem run_preserves_not_registered (ops : List Op) :
    ∀ (s : State) (t : String), (∀ op ∈ ops, setupTag op ≠ some t) →
      findClock s.m_clocks t = none →
      findClock (run s ops).m_clocks t = none := by
  induction ops with
  | nil => intro s t _ h; exact h
  | cons op rest ih =>
      intro s t hops h
      have h1 := findClock_applyOp_none h op (hops op (List.mem_cons_self _ _))
      exact ih (applyOp s op) t (fun o ho => hops o (List.mem_cons_of_mem _ ho)) h1

/-- Counterexample to C9 as stated: `ClockHandler::setup` has no guard on its
tag argument, so a registration call with tag "system" stores a real registry
entry under the reserved identifier. -/
theorem system_registered_counterexample :
    findClock (run initState [.setup system 0 invalidOffset 0]).m_clocks system
      = some ⟨0, invalidOffset, invalidTime⟩ := by
  decide

/-- C9 (amended): under every sequence of `update`, `adjust`, `setOverride`,
and of `setup` calls whose tag is not the reserved "system" identifier, the
registry never contains an entry for "system" (starting from the constructor
state); only a `setup` call passing the tag "system" itself can store one. -/
theorem system_never_registered (ops : List Op)
    (h : ∀ op ∈ ops, setupTag op ≠ some system) :
    findClock (run initState ops).m_clocks system = none :=
  run_preserves_not_registered ops initState system h (by decide)

/-- Witness for `system_never_registered` on a concrete run mixing updates,
adjusts, override toggles and a non-system setup. -/
theorem system_never_registered_witness :
    findClock (run initState [.setup micom 5 invalidOffset 0,
        .update 5 manual invalidTime 10, .adjust 3,
        .setOverride true]).m_clocks system = none :=
  system_never_registered _ (by decide)

/-- A registered tag stays registered under any single mutating operation. -/
theorem findClock_applyOp_isSome {s : State} {t : String}
    (h : (findClock s.m_clocks t).isSome) (op : Op) :
    (findClock (applyOp s op).m_clocks t).isSome := by
  cases op with
  | setup t1 pr off n =>
      simp only [applyOp, setup]
      cases hf : findClock s.m_clocks t1 with
      | some c =>
          simp only
          by_cases ht : t = t1
          · subst ht
            rw [findClock_replace_self hf _]
            rfl
          · rw [findClock_replace_other ht _]
            exact h
      | none =>
          simp only
          rw [findClock_append]
          cases hft : findClock s.m_clocks t with
          | some c0 => rfl
          | none => rw [hft] at h; exact absurd h (by simp)
  | update off tag ts n =>
      simp only [applyOp, update]
      cases hf : findClock s.m_clocks tag with
      | none => exact h
      | some c =>
          simp only
          split
          · exact h
          · simp only
            by_cases ht : t = tag
            · subst ht
              rw [findClock_replace_self hf _]
              rfl
            · rw [findClock_replace_other ht _]
              exact h
  | adjust d =>
      simp only [applyOp, adjust, findClock_map]
      cases hft : findClock s.m_clocks t with
      | some c0 => rfl
      | none => rw [hft] at h; exact absurd h (by simp)
  | setOverride b =>
      simp only [applyOp]
      rw [manualOverride_clocks]
      exact h

/-- A registered tag stays registered along any run. -/
theorem run_preserves_registered (ops : List Op) :
    ∀ (s : State) (t : String), (findClock s.m_clocks t).isSome →
      (findClock (run s ops).m_clocks t).isSome := by
  induction ops with
  | nil => intro s t h; exact h
  | cons op rest ih =>
      intro s t h
      exact ih (applyOp s op) t (findClock_applyOp_isSome h op)

/-- An update of a registered tag never reports the unknown-source failure:
it returns true on both the accepted and the silently-ignored path. -/
theorem update_true_of_registered {s : State} {t : String}
    (h : (findClock s.m_clocks t).isSome) (off ts now : Int) :
    (update s off t ts now).2.1 = true := by
  unfold update
  cases hf : findClock s.m_clocks t with
  | none => rw [hf] at h; exact absurd h (by simp)
  | some c =>
      simp only
      split <;> rfl

/-- C10: the constructor registers the "manual" source with priority 0 and
unset offset and `lastUpdate`; no operation removes registry entries, so
after every sequence of mutating operations "manual" is still registered and
`update(offset, "manual")` never returns the unknown-source failure. -/
theorem manual_always_registered (ops : List Op) (off ts now : Int) :
    findClock initState.m_clocks manual = some ⟨0, invalidOffset, invalidTime⟩
    ∧ (update (run initState ops) off manual ts now).2.1 = true := by
  constructor
  · decide
  · exact update_true_of_registered
      (run_preserves_registered ops initState manual (by decide)) off ts now

end ClockHandler
